import Mathlib

/-!
Verification of the condition-variable implementation in
`src/lib/libkse/thread/thr_cond.c` (FreeBSD libkse user-space threads).

The C code is shallowly embedded: threads are records indexed by a thread
id, the intrusive wait queue is a list of thread ids, and the four
entry points (`pthread_cond_wait`, `pthread_cond_timedwait`,
`pthread_cond_signal`, `pthread_cond_broadcast`) are pure functions.
The scheduler bridge (`_thread_kern_sched_state_unlock`) and the mutex
layer (`_mutex_cv_unlock` / `_mutex_cv_lock`) are external collaborators:
their outcomes, and the global state observed when a blocked thread
resumes, are supplied by a `WaitEnv` oracle record.
-/

namespace ThrCond

/-- Thread identifier (the `pthread_t` handle). -/
abbrev TId := Nat

/-- Mutex identifier (the `pthread_mutex_t` value `*mutex`). -/
abbrev MutexId := Nat

/-- Scheduling state of a thread (`PS_RUNNING` / `PS_COND_WAIT`). -/
inductive ThreadState where
  | running
  | condWait
deriving DecidableEq

/-- Per-thread fields used by thr_cond.c: `active_priority`, the
`PTHREAD_FLAGS_IN_CONDQ` bit of `flags`, the `timeout` and `interrupted`
flags, `wakeup_time`, the scheduling state, and whether `continuation`
is non-NULL. -/
structure Thread where
  active_priority : Int
  inCondq : Bool
  timeout : Bool
  interrupted : Bool
  wakeupSec : Int
  wakeupNsec : Int
  state : ThreadState
  hasContinuation : Bool
deriving DecidableEq

/-- The global map from thread ids to thread records. -/
abbrev Threads := TId → Thread

/-- Point update of the thread map. -/
def updT (ths : Threads) (t : TId) (v : Thread) : Threads :=
  fun x => if x = t then v else ths x

/-- Clear the `PTHREAD_FLAGS_IN_CONDQ` bit of thread `t`. -/
def clearInQ (ths : Threads) (t : TId) : Threads :=
  updT ths t { ths t with inCondq := false }

/-- Set the `PTHREAD_FLAGS_IN_CONDQ` bit of thread `t`. -/
def setInQ (ths : Threads) (t : TId) : Threads :=
  updT ths t { ths t with inCondq := true }

/-- `PTHREAD_NEW_STATE(pthread, PS_RUNNING)`. -/
def setRunning (ths : Threads) (t : TId) : Threads :=
  updT ths t { ths t with state := .running }

/-- `enum pthread_cond_type`: `COND_TYPE_FAST` is the only supported kind. -/
inductive CondType where
  | fast
  | other
deriving DecidableEq

/-- The `struct pthread_cond` record: type, the `COND_FLAGS_INITED` bit of
`c_flags`, the bound mutex `c_mutex`, and the wait queue `c_queue`.  The
spinlock `lock` carries no data and is not modelled. -/
structure Cond where
  c_type : CondType
  c_inited : Bool
  c_mutex : Option MutexId
  c_queue : List TId
deriving DecidableEq

/-- POSIX error number used by thr_cond.c. -/
def EINVAL : Int := 22

/-- POSIX error number used by thr_cond.c. -/
def ENOMEM : Int := 12

/-- POSIX error number used by thr_cond.c. -/
def ETIMEDOUT : Int := 60

/-- `struct timespec`. -/
structure Timespec where
  tv_sec : Int
  tv_nsec : Int
deriving DecidableEq

/-- `cond_queue_enq`, scanning branch: from the head, walk past every
entry whose priority is greater than or equal to the new thread's and
insert before the first entry of strictly lower priority
(`while (pthread->active_priority <= tid->active_priority) tid = TAILQ_NEXT(tid, qe); TAILQ_INSERT_BEFORE`). -/
def cond_queue_insert_scan (ths : Threads) (t : TId) : List TId → List TId
  | [] => [t]
  | x :: xs =>
    if (ths t).active_priority ≤ (ths x).active_priority then
      x :: cond_queue_insert_scan ths t xs
    else
      t :: x :: xs

/-- Queue part of `cond_queue_enq`: append at the tail when the queue is
empty or the new priority is at most the tail's priority, otherwise scan
from the head. -/
def cond_queue_enq_list (ths : Threads) (t : TId) (q : List TId) : List TId :=
  match q.getLast? with
  | none => q ++ [t]
  | some tl =>
    if (ths t).active_priority ≤ (ths tl).active_priority then q ++ [t]
    else cond_queue_insert_scan ths t q

/-- `cond_queue_enq`: insert the thread by priority and set its
`PTHREAD_FLAGS_IN_CONDQ` flag. -/
def cond_queue_enq (ths : Threads) (c : Cond) (t : TId) : Threads × Cond :=
  (setInQ ths t, { c with c_queue := cond_queue_enq_list ths t c.c_queue })

/-- `cond_queue_remove`: unlink the thread only when its
`PTHREAD_FLAGS_IN_CONDQ` flag is set, clearing the flag; otherwise do
nothing. -/
def cond_queue_remove (ths : Threads) (c : Cond) (t : TId) : Threads × Cond :=
  if (ths t).inCondq then
    (clearInQ ths t, { c with c_queue := c.c_queue.erase t })
  else
    (ths, c)

/-- Queue part of `cond_queue_deq`: pop entries from the head, clearing
each popped entry's membership flag, until one is found whose `timeout`
and `interrupted` flags are both unset.  Returns the updated thread map,
the remaining queue, and the dequeued thread if any. -/
def cond_queue_deq_list (ths : Threads) : List TId → Threads × List TId × Option TId
  | [] => (ths, [], none)
  | t :: rest =>
    let ths1 := clearInQ ths t
    if (ths1 t).timeout = false ∧ (ths1 t).interrupted = false then
      (ths1, rest, some t)
    else
      cond_queue_deq_list ths1 rest

/-- `cond_queue_deq` acting on a condition variable. -/
def cond_queue_deq (ths : Threads) (c : Cond) : Threads × Cond × Option TId :=
  let r := cond_queue_deq_list ths c.c_queue
  (r.1, { c with c_queue := r.2.1 }, r.2.2)

/-- The repeated pattern `cond_queue_remove(cond, thread); if
(TAILQ_FIRST(&cond->c_queue) == NULL) cond->c_mutex = NULL;` shared by
the unlock-failure rollback, the interrupted cleanup and the timeout
cleanup paths. -/
def cleanupSection (ths : Threads) (c : Cond) (t : TId) : Threads × Cond :=
  let r := cond_queue_remove ths c t
  if r.2.c_queue = [] then (r.1, { r.2 with c_mutex := none }) else r

/-- The condition variable built by `pthread_cond_init(cond, NULL)`:
fast type, `COND_FLAGS_INITED` set, empty queue, no bound mutex. -/
def freshCond : Cond :=
  { c_type := .fast, c_inited := true, c_mutex := none, c_queue := [] }

/-- Oracle for the external collaborators of `wait` / `timedwait`:
whether the lazy `pthread_cond_init` allocation succeeds, the result of
`_mutex_cv_unlock`, the global state observed when the blocked thread is
rescheduled after `_thread_kern_sched_state_unlock`, and the result of
`_mutex_cv_lock`. -/
structure WaitEnv where
  initOk : Bool
  unlockResult : Int
  resumeThs : Threads
  resumeCond : Cond
  relockResult : Int

/-- Observable outcome of a `wait` / `timedwait` call: the return value,
the value stored into `errno` if any, the final thread map, the final
`*cond` handle (`none` = NULL pointer, `some none` = zero placeholder,
`some (some c)` = live object), whether `_mutex_cv_unlock` and
`_mutex_cv_lock` were invoked, and whether the cancellation continuation
ran. -/
structure WaitResult where
  rval : Int
  errnoVal : Option Int
  ths : Threads
  handle : Option (Option Cond)
  unlockCalled : Bool
  relockCalled : Bool
  ranContinuation : Bool

/-- Body of `pthread_cond_wait` once `*cond` is a live object `c0`:
the `COND_FLAGS_INITED` re-init of the queue, the type dispatch, the
mutex-compatibility validation, flag reset, enqueue, recording of
`c_mutex`, the `_mutex_cv_unlock` rollback path, blocking, and the
interrupted-resumption cleanup followed by unconditional relock. -/
def condWaitBody (t : TId) (mutex : Option MutexId) (ths : Threads) (c0 : Cond)
    (env : WaitEnv) : WaitResult :=
  let c := if c0.c_inited then c0 else { c0 with c_queue := [], c_inited := true }
  match c.c_type with
  | .other =>
    { rval := EINVAL, errnoVal := none, ths := ths, handle := some (some c),
      unlockCalled := false, relockCalled := false, ranContinuation := false }
  | .fast =>
    if mutex = none ∨ (c.c_mutex ≠ none ∧ c.c_mutex ≠ mutex) then
      { rval := EINVAL, errnoVal := none, ths := ths, handle := some (some c),
        unlockCalled := false, relockCalled := false, ranContinuation := false }
    else
      let ths1 := updT ths t
        { ths t with timeout := false, interrupted := false, wakeupSec := -1 }
      let ec := cond_queue_enq ths1 c t
      let c1 := { ec.2 with c_mutex := mutex }
      if env.unlockResult ≠ 0 then
        let r := cleanupSection ec.1 c1 t
        { rval := env.unlockResult, errnoVal := none, ths := r.1,
          handle := some (some r.2),
          unlockCalled := true, relockCalled := false, ranContinuation := false }
      else
        let ths2 := env.resumeThs
        let c2 := env.resumeCond
        if (ths2 t).interrupted then
          let r := cleanupSection ths2 c2 t
          { rval := env.relockResult, errnoVal := none, ths := r.1,
            handle := some (some r.2),
            unlockCalled := true, relockCalled := true,
            ranContinuation := (r.1 t).hasContinuation }
        else
          { rval := env.relockResult, errnoVal := none, ths := ths2,
            handle := some (some c2),
            unlockCalled := true, relockCalled := true, ranContinuation := false }

/-- `pthread_cond_wait`: NULL handle check, lazy dynamic initialization of
a zero placeholder, then the body. -/
def pthread_cond_wait (t : TId) (handle : Option (Option Cond))
    (mutex : Option MutexId) (ths : Threads) (env : WaitEnv) : WaitResult :=
  match handle with
  | none =>
    { rval := EINVAL, errnoVal := none, ths := ths, handle := none,
      unlockCalled := false, relockCalled := false, ranContinuation := false }
  | some (some c) => condWaitBody t mutex ths c env
  | some none =>
    if env.initOk then condWaitBody t mutex ths freshCond env
    else
      { rval := ENOMEM, errnoVal := none, ths := ths, handle := some none,
        unlockCalled := false, relockCalled := false, ranContinuation := false }

/-- Body of `pthread_cond_timedwait` once `*cond` is a live object: same
as `condWaitBody` except that `wakeup_time` is set from `abstime` and the
resumption distinguishes normal wakeup from timeout/interruption, the
latter returning `ETIMEDOUT` with a best-effort relock whose error is
ignored. -/
def condTimedWaitBody (t : TId) (mutex : Option MutexId) (ts : Timespec)
    (ths : Threads) (c0 : Cond) (env : WaitEnv) : WaitResult :=
  let c := if c0.c_inited then c0 else { c0 with c_queue := [], c_inited := true }
  match c.c_type with
  | .other =>
    { rval := EINVAL, errnoVal := none, ths := ths, handle := some (some c),
      unlockCalled := false, relockCalled := false, ranContinuation := false }
  | .fast =>
    if mutex = none ∨ (c.c_mutex ≠ none ∧ c.c_mutex ≠ mutex) then
      { rval := EINVAL, errnoVal := none, ths := ths, handle := some (some c),
        unlockCalled := false, relockCalled := false, ranContinuation := false }
    else
      let ths1 := updT ths t
        { ths t with
          wakeupSec := ts.tv_sec, wakeupNsec := ts.tv_nsec,
          timeout := false, interrupted := false }
      let ec := cond_queue_enq ths1 c t
      let c1 := { ec.2 with c_mutex := mutex }
      if env.unlockResult ≠ 0 then
        let r := cleanupSection ec.1 c1 t
        { rval := env.unlockResult, errnoVal := none, ths := r.1,
          handle := some (some r.2),
          unlockCalled := true, relockCalled := false, ranContinuation := false }
      else
        let ths2 := env.resumeThs
        let c2 := env.resumeCond
        if (ths2 t).timeout = false ∧ (ths2 t).interrupted = false then
          { rval := env.relockResult, errnoVal := none, ths := ths2,
            handle := some (some c2),
            unlockCalled := true, relockCalled := true, ranContinuation := false }
        else
          let intr := (ths2 t).interrupted
          let r := cleanupSection ths2 c2 t
          { rval := ETIMEDOUT, errnoVal := none, ths := r.1,
            handle := some (some r.2),
            unlockCalled := true, relockCalled := true,
            ranContinuation := intr && (r.1 t).hasContinuation }

/-- Outcome of `pthread_cond_timedwait`: either a normal return or a
dereference of a NULL pointer (`abstime->tv_sec` at line 309 when
`abstime` is NULL, `*cond` at line 320 when `cond` is NULL). -/
inductive TWResult where
  | nullDeref
  | ret (r : WaitResult)

/-- Return value of a `TWResult` when the call returned at all. -/
def TWResult.rvalOf : TWResult → Option Int
  | .nullDeref => none
  | .ret r => some r.rval

/-- `pthread_cond_timedwait`: the NULL checks only assign `rval`, then the
deadline validation dereferences `abstime` unconditionally and returns
`-1` with `errno = EINVAL` on a malformed deadline; afterwards `*cond` is
dereferenced unconditionally, lazily initializing a zero placeholder. -/
def pthread_cond_timedwait (t : TId) (handle : Option (Option Cond))
    (mutex : Option MutexId) (abstime : Option Timespec)
    (ths : Threads) (env : WaitEnv) : TWResult :=
  match abstime with
  | none => .nullDeref
  | some ts =>
    if ts.tv_sec < 0 ∨ ts.tv_nsec < 0 ∨ ts.tv_nsec ≥ 1000000000 then
      .ret { rval := -1, errnoVal := some EINVAL, ths := ths, handle := handle,
             unlockCalled := false, relockCalled := false, ranContinuation := false }
    else
      match handle with
      | none => .nullDeref
      | some (some c) => .ret (condTimedWaitBody t mutex ts ths c env)
      | some none =>
        if env.initOk then .ret (condTimedWaitBody t mutex ts ths freshCond env)
        else
          .ret { rval := ENOMEM, errnoVal := none, ths := ths, handle := some none,
                 unlockCalled := false, relockCalled := false,
                 ranContinuation := false }

/-- Observable outcome of `signal` / `broadcast`. -/
structure SBResult where
  rval : Int
  ths : Threads
  handle : Option (Option Cond)

/-- Body of `pthread_cond_signal`: dequeue the first eligible thread, make
it runnable, and clear `c_mutex` when the queue is left empty. -/
def condSignalBody (ths : Threads) (c : Cond) : Int × Threads × Cond :=
  match c.c_type with
  | .fast =>
    let r := cond_queue_deq ths c
    let ths1 := match r.2.2 with
      | some t => setRunning r.1 t
      | none => r.1
    let c1 := if r.2.1.c_queue = [] then { r.2.1 with c_mutex := none } else r.2.1
    (0, ths1, c1)
  | .other => (EINVAL, ths, c)

/-- `pthread_cond_signal`: a NULL handle or a zero placeholder yields
`EINVAL` (no lazy initialization here, unlike `wait`). -/
def pthread_cond_signal (ths : Threads) (handle : Option (Option Cond)) : SBResult :=
  match handle with
  | none => { rval := EINVAL, ths := ths, handle := none }
  | some none => { rval := EINVAL, ths := ths, handle := some none }
  | some (some c) =>
    let r := condSignalBody ths c
    { rval := r.1, ths := r.2.1, handle := some (some r.2.2) }

/-- Strict decrease of the queue under a successful `cond_queue_deq`. -/
theorem deq_list_lt_of_some (ths : Threads) (q : List TId) (t : TId)
    (h : (cond_queue_deq_list ths q).2.2 = some t) :
    (cond_queue_deq_list ths q).2.1.length < q.length := by
  induction q generalizing ths with
  | nil => simp [cond_queue_deq_list] at h
  | cons a rest ih =>
    simp only [cond_queue_deq_list] at h ⊢
    split at h <;> rename_i hcond
    · rw [if_pos hcond]
      exact Nat.lt_succ_self rest.length
    · rw [if_neg hcond]
      exact Nat.lt_succ_of_lt (ih _ h)

/-- The `while ((pthread = cond_queue_deq(*cond)) != NULL)
PTHREAD_NEW_STATE(pthread, PS_RUNNING);` loop of
`pthread_cond_broadcast`, returning the final thread map and the final
queue. -/
def cond_broadcast_loop (ths : Threads) (q : List TId) : Threads × List TId :=
  match h : (cond_queue_deq_list ths q).2.2 with
  | none => ((cond_queue_deq_list ths q).1, (cond_queue_deq_list ths q).2.1)
  | some t =>
    cond_broadcast_loop (setRunning (cond_queue_deq_list ths q).1 t)
      (cond_queue_deq_list ths q).2.1
termination_by q.length
decreasing_by exact deq_list_lt_of_some ths q t h

/-- Body of `pthread_cond_broadcast`: drain the queue and unconditionally
clear `c_mutex`. -/
def condBroadcastBody (ths : Threads) (c : Cond) : Int × Threads × Cond :=
  match c.c_type with
  | .fast =>
    let r := cond_broadcast_loop ths c.c_queue
    (0, r.1, { c with c_queue := r.2, c_mutex := none })
  | .other => (EINVAL, ths, c)

/-- `pthread_cond_broadcast`: a NULL handle or a zero placeholder yields
`EINVAL` (no lazy initialization here, unlike `wait`). -/
def pthread_cond_broadcast (ths : Threads) (handle : Option (Option Cond)) : SBResult :=
  match handle with
  | none => { rval := EINVAL, ths := ths, handle := none }
  | some none => { rval := EINVAL, ths := ths, handle := some none }
  | some (some c) =>
    let r := condBroadcastBody ths c
    { rval := r.1, ths := r.2.1, handle := some (some r.2.2) }

/-- Evaluation of a point update. -/
theorem updT_apply (ths : Threads) (t : TId) (v : Thread) (x : TId) :
    updT ths t v x = if x = t then v else ths x := rfl

@[simp] theorem updT_same (ths : Threads) (t : TId) (v : Thread) :
    updT ths t v t = v := by simp [updT]

theorem updT_other (ths : Threads) (t : TId) (v : Thread) (x : TId) (h : x ≠ t) :
    updT ths t v x = ths x := by simp [updT, h]

@[simp] theorem clearInQ_timeout (ths : Threads) (t x : TId) :
    (clearInQ ths t x).timeout = (ths x).timeout := by
  by_cases h : x = t <;> simp [clearInQ, updT, h]

@[simp] theorem clearInQ_interrupted (ths : Threads) (t x : TId) :
    (clearInQ ths t x).interrupted = (ths x).interrupted := by
  by_cases h : x = t <;> simp [clearInQ, updT, h]

@[simp] theorem clearInQ_state (ths : Threads) (t x : TId) :
    (clearInQ ths t x).state = (ths x).state := by
  by_cases h : x = t <;> simp [clearInQ, updT, h]

@[simp] theorem clearInQ_prio (ths : Threads) (t x : TId) :
    (clearInQ ths t x).active_priority = (ths x).active_priority := by
  by_cases h : x = t <;> simp [clearInQ, updT, h]

@[simp] theorem setRunning_timeout (ths : Threads) (t x : TId) :
    (setRunning ths t x).timeout = (ths x).timeout := by
  by_cases h : x = t <;> simp [setRunning, updT, h]

@[simp] theorem setRunning_interrupted (ths : Threads) (t x : TId) :
    (setRunning ths t x).interrupted = (ths x).interrupted := by
  by_cases h : x = t <;> simp [setRunning, updT, h]

theorem setRunning_state (ths : Threads) (t x : TId) :
    (setRunning ths t x).state = if x = t then .running else (ths x).state := by
  by_cases h : x = t <;> simp [setRunning, updT, h]

/-- Dequeue on the empty queue. -/
theorem deq_list_nil (ths : Threads) : cond_queue_deq_list ths [] = (ths, [], none) := rfl

/-- When the dequeue loop returns NULL the queue has been exhausted. -/
theorem deq_none_nil (ths : Threads) (q : List TId)
    (h : (cond_queue_deq_list ths q).2.2 = none) :
    (cond_queue_deq_list ths q).2.1 = [] := by
  induction q generalizing ths with
  | nil => rfl
  | cons a rest ih =>
    simp only [cond_queue_deq_list] at h ⊢
    split at h <;> rename_i hcond
    · simp at h
    · first
      | exact ih _ h
      | (rw [if_neg hcond]; exact ih _ h)

/-- The dequeue loop only clears `PTHREAD_FLAGS_IN_CONDQ` bits: every
other per-thread field is untouched. -/
theorem deq_list_state (ths : Threads) (q : List TId) (x : TId) :
    ((cond_queue_deq_list ths q).1 x).state = (ths x).state := by
  induction q generalizing ths with
  | nil => rfl
  | cons a rest ih =>
    simp only [cond_queue_deq_list]
    split
    · simp
    · rw [ih]; simp

/-- The dequeue loop preserves priorities. -/
theorem deq_list_prio (ths : Threads) (q : List TId) (x : TId) :
    ((cond_queue_deq_list ths q).1 x).active_priority = (ths x).active_priority := by
  induction q generalizing ths with
  | nil => rfl
  | cons a rest ih =>
    simp only [cond_queue_deq_list]
    split
    · simp
    · rw [ih]; simp

/-- The dequeue loop preserves the `timeout` flags. -/
theorem deq_list_timeout (ths : Threads) (q : List TId) (x : TId) :
    ((cond_queue_deq_list ths q).1 x).timeout = (ths x).timeout := by
  induction q generalizing ths with
  | nil => rfl
  | cons a rest ih =>
    simp only [cond_queue_deq_list]
    split
    · simp
    · rw [ih]; simp

/-- The dequeue loop preserves the `interrupted` flags. -/
theorem deq_list_interrupted (ths : Threads) (q : List TId) (x : TId) :
    ((cond_queue_deq_list ths q).1 x).interrupted = (ths x).interrupted := by
  induction q generalizing ths with
  | nil => rfl
  | cons a rest ih =>
    simp only [cond_queue_deq_list]
    split
    · simp
    · rw [ih]; simp

/-- The queue left by the dequeue loop is a suffix of the original. -/
theorem deq_list_suffix (ths : Threads) (q : List TId) :
    (cond_queue_deq_list ths q).2.1 <:+ q := by
  induction q generalizing ths with
  | nil => exact List.nil_suffix
  | cons a rest ih =>
    simp only [cond_queue_deq_list]
    split
    · exact List.suffix_cons a rest
    · exact (ih (clearInQ ths a)).trans (List.suffix_cons a rest)

/-- Unfolding of the broadcast loop when `cond_queue_deq` returns NULL. -/
theorem bloop_eq_none (ths : Threads) (q : List TId)
    (h : (cond_queue_deq_list ths q).2.2 = none) :
    cond_broadcast_loop ths q =
      ((cond_queue_deq_list ths q).1, (cond_queue_deq_list ths q).2.1) := by
  conv_lhs => unfold cond_broadcast_loop
  split <;> rename_i heq
  · rfl
  · rw [h] at heq; cases heq

/-- Unfolding of the broadcast loop when `cond_queue_deq` returns a
thread. -/
theorem bloop_eq_some (ths : Threads) (q : List TId) (t : TId)
    (h : (cond_queue_deq_list ths q).2.2 = some t) :
    cond_broadcast_loop ths q =
      cond_broadcast_loop (setRunning (cond_queue_deq_list ths q).1 t)
        (cond_queue_deq_list ths q).2.1 := by
  conv_lhs => unfold cond_broadcast_loop
  split <;> rename_i heq
  · rw [h] at heq; cases heq
  · rw [h] at heq; cases heq; rfl

/-- The broadcast loop always drains the queue. -/
theorem bloop_nil_aux :
    ∀ (n : Nat) (ths : Threads) (q : List TId), q.length ≤ n →
      (cond_broadcast_loop ths q).2 = [] := by
  intro n
  induction n with
  | zero =>
    intro ths q hq
    have hq0 : q = [] := List.length_eq_zero.mp (Nat.le_zero.mp hq)
    subst hq0
    rw [bloop_eq_none ths [] rfl]
    rfl
  | succ n ih =>
    intro ths q hq
    cases hdeq : (cond_queue_deq_list ths q).2.2 with
    | none =>
      rw [bloop_eq_none ths q hdeq]
      exact deq_none_nil ths q hdeq
    | some t =>
      rw [bloop_eq_some ths q t hdeq]
      have hlt := deq_list_lt_of_some ths q t hdeq
      exact ih _ _ (Nat.le_of_lt_succ (Nat.lt_of_lt_of_le hlt hq))

/-- The broadcast loop always drains the queue. -/
theorem bloop_nil (ths : Threads) (q : List TId) :
    (cond_broadcast_loop ths q).2 = [] :=
  bloop_nil_aux q.length ths q (Nat.le_refl _)

/-- A thread already running stays running through the broadcast loop. -/
theorem bloop_run_mono_aux :
    ∀ (n : Nat) (ths : Threads) (q : List TId), q.length ≤ n →
      ∀ x : TId, (ths x).state = .running →
        ((cond_broadcast_loop ths q).1 x).state = .running := by
  intro n
  induction n with
  | zero =>
    intro ths q hq x hx
    have hq0 : q = [] := List.length_eq_zero.mp (Nat.le_zero.mp hq)
    subst hq0
    rw [bloop_eq_none ths [] rfl]
    exact hx
  | succ n ih =>
    intro ths q hq x hx
    cases hdeq : (cond_queue_deq_list ths q).2.2 with
    | none =>
      rw [bloop_eq_none ths q hdeq]
      rw [deq_list_state]
      exact hx
    | some t =>
      rw [bloop_eq_some ths q t hdeq]
      have hlt := deq_list_lt_of_some ths q t hdeq
      refine ih _ _ (Nat.le_of_lt_succ (Nat.lt_of_lt_of_le hlt hq)) x ?_
      rw [setRunning_state]
      by_cases hxt : x = t
      · simp [hxt]
      · rw [if_neg hxt, deq_list_state]
        exact hx

/-- One step of the dequeue loop on an eligible head. -/
theorem deq_list_cons_eligible (ths : Threads) (t : TId) (rest : List TId)
    (hto : (ths t).timeout = false) (hin : (ths t).interrupted = false) :
    cond_queue_deq_list ths (t :: rest) = (clearInQ ths t, rest, some t) := by
  simp only [cond_queue_deq_list]
  rw [if_pos]
  constructor
  · rw [clearInQ_timeout]; exact hto
  · rw [clearInQ_interrupted]; exact hin

/-- Every member of an all-eligible queue has been made runnable when the
broadcast loop finishes. -/
theorem bloop_all_run_aux :
    ∀ (n : Nat) (ths : Threads) (q : List TId), q.length ≤ n →
      (∀ x ∈ q, (ths x).timeout = false ∧ (ths x).interrupted = false) →
      ∀ x ∈ q, ((cond_broadcast_loop ths q).1 x).state = .running := by
  intro n
  induction n with
  | zero =>
    intro ths q hq helig x hx
    have hq0 : q = [] := List.length_eq_zero.mp (Nat.le_zero.mp hq)
    subst hq0
    cases hx
  | succ n ih =>
    intro ths q hq helig x hx
    cases q with
    | nil => cases hx
    | cons t rest =>
      have ht := helig t (List.mem_cons_self t rest)
      have hdeq : cond_queue_deq_list ths (t :: rest) = (clearInQ ths t, rest, some t) :=
        deq_list_cons_eligible ths t rest ht.1 ht.2
      have hdeq2 : (cond_queue_deq_list ths (t :: rest)).2.2 = some t := by rw [hdeq]
      rw [bloop_eq_some ths (t :: rest) t hdeq2, hdeq]
      have hlen : rest.length ≤ n := Nat.le_of_succ_le_succ hq
      rcases List.mem_cons.mp hx with hxt | hxr
      · subst hxt
        refine bloop_run_mono_aux n _ rest hlen x ?_
        rw [setRunning_state, if_pos rfl]
      · refine ih _ rest hlen ?_ x hxr
        intro y hy
        have hey := helig y (List.mem_cons_of_mem t hy)
        constructor
        · rw [setRunning_timeout, clearInQ_timeout]; exact hey.1
        · rw [setRunning_interrupted, clearInQ_interrupted]; exact hey.2

/-- Boolean test: the enqueuing thread's priority is at most that of the
queued thread `x`, i.e. `x` must stay in front of the new thread. -/
def geP (ths : Threads) (t : TId) (x : TId) : Bool :=
  decide ((ths t).active_priority ≤ (ths x).active_priority)

/-- The queue invariant: priorities are non-increasing from head to tail. -/
def QSorted (ths : Threads) (q : List TId) : Prop :=
  q.Pairwise (fun a b => (ths b).active_priority ≤ (ths a).active_priority)

/-- The scanning insertion places the new thread after the longest prefix
of entries with priority at least its own. -/
theorem insert_scan_eq (ths : Threads) (t : TId) (q : List TId) :
    cond_queue_insert_scan ths t q =
      q.takeWhile (geP ths t) ++ t :: q.dropWhile (geP ths t) := by
  induction q with
  | nil => rfl
  | cons x xs ih =>
    simp only [cond_queue_insert_scan]
    by_cases h : (ths t).active_priority ≤ (ths x).active_priority
    · rw [if_pos h, ih, List.takeWhile_cons, List.dropWhile_cons]
      have hb : geP ths t x = true := decide_eq_true h
      rw [hb]
      simp
    · rw [if_neg h]
      have hb : geP ths t x = false := decide_eq_false h
      rw [List.takeWhile_cons, List.dropWhile_cons, hb]
      simp

/-- The enqueue insertion never produces an empty queue. -/
theorem enq_list_ne_nil (ths : Threads) (t : TId) (q : List TId) :
    cond_queue_enq_list ths t q ≠ [] := by
  unfold cond_queue_enq_list
  split
  · simp
  · split
    · simp
    · rw [insert_scan_eq]
      simp

/-- In a sorted queue every entry's priority is at least the tail's. -/
theorem sorted_getLast_le (ths : Threads) :
    ∀ (q : List TId) (tl : TId), QSorted ths q → q.getLast? = some tl →
      ∀ x ∈ q, (ths tl).active_priority ≤ (ths x).active_priority := by
  intro q
  induction q with
  | nil => intro tl _ h; cases h
  | cons a l ih =>
    intro tl hs hl x hx
    cases l with
    | nil =>
      have ha : a = tl := by simpa using hl
      have hxa : x = a := by simpa using hx
      subst ha; subst hxa
      exact le_refl _
    | cons b l' =>
      have hl' : (b :: l').getLast? = some tl := by
        rw [List.getLast?_cons_cons] at hl; exact hl
      have hs' : QSorted ths (b :: l') := (List.pairwise_cons.mp hs).2
      rcases List.mem_cons.mp hx with hxa | hxl
      · subst hxa
        have h1 := ih tl hs' hl' b (List.mem_cons_self b l')
        have h2 : (ths b).active_priority ≤ (ths x).active_priority :=
          (List.pairwise_cons.mp hs).1 b (List.mem_cons_self b l')
        exact le_trans h1 h2
      · exact ih tl hs' hl' x hxl

/-- C1 core: on a sorted queue, `cond_queue_enq` inserts the new thread
after every entry of priority greater than or equal to its own and before
the first entry of strictly lower priority. -/
theorem enq_list_eq (ths : Threads) (t : TId) (q : List TId) (hs : QSorted ths q) :
    cond_queue_enq_list ths t q =
      q.takeWhile (geP ths t) ++ t :: q.dropWhile (geP ths t) := by
  unfold cond_queue_enq_list
  split
  · rename_i hq
    have hq0 : q = [] := by simpa using List.getLast?_eq_none_iff.mp hq
    subst hq0
    rfl
  · rename_i tl hq
    by_cases h : (ths t).active_priority ≤ (ths tl).active_priority
    · rw [if_pos h]
      have hall : ∀ x ∈ q, geP ths t x = true := by
        intro x hx
        exact decide_eq_true (le_trans h (sorted_getLast_le ths q tl hs hq x hx))
      have htw : q.takeWhile (geP ths t) = q := List.takeWhile_eq_self_iff.mpr hall
      have hdw : q.dropWhile (geP ths t) = [] := List.dropWhile_eq_nil_iff.mpr hall
      rw [htw, hdw]
    · rw [if_neg h]
      exact insert_scan_eq ths t q

/-- The head of the dropped suffix fails the predicate. -/
theorem dropWhile_head_false {p : TId → Bool} :
    ∀ (l l' : List TId) (b : TId), l.dropWhile p = b :: l' → p b = false := by
  intro l
  induction l with
  | nil => intro l' b h; cases h
  | cons x xs ih =>
    intro l' b h
    rw [List.dropWhile_cons] at h
    by_cases hp : p x = true
    · rw [if_pos hp] at h
      exact ih l' b h
    · rw [if_neg hp] at h
      cases h
      exact Bool.not_eq_true _ |>.mp hp

/-- C1 preservation: enqueuing into a sorted queue keeps it sorted. -/
theorem enq_list_sorted (ths : Threads) (t : TId) (q : List TId) (hs : QSorted ths q) :
    QSorted ths (cond_queue_enq_list ths t q) := by
  rw [enq_list_eq ths t q hs]
  have hsplit : q.takeWhile (geP ths t) ++ q.dropWhile (geP ths t) = q :=
    List.takeWhile_append_dropWhile (geP ths t) q
  have hq : QSorted ths (q.takeWhile (geP ths t) ++ q.dropWhile (geP ths t)) := by
    rw [hsplit]; exact hs
  rw [QSorted, List.pairwise_append] at hq
  rw [QSorted, List.pairwise_append]
  refine ⟨hq.1, ?_, ?_⟩
  · rw [List.pairwise_cons]
    refine ⟨?_, hq.2.1⟩
    intro b hb
    cases hdw : q.dropWhile (geP ths t) with
    | nil => rw [hdw] at hb; cases hb
    | cons hd rest =>
      rw [hdw] at hb
      have hhd : geP ths t hd = false := dropWhile_head_false q rest hd hdw
      have hne : ¬(ths t).active_priority ≤ (ths hd).active_priority := by
        simpa [geP] using hhd
      have hhd' : (ths hd).active_priority < (ths t).active_priority :=
        lt_of_not_le hne
      rcases List.mem_cons.mp hb with hbh | hbr
      · subst hbh; exact le_of_lt hhd'
      · have hrest : (ths b).active_priority ≤ (ths hd).active_priority := by
          have hdwsorted : QSorted ths (hd :: rest) := by rw [← hdw]; exact hq.2.1
          exact (List.pairwise_cons.mp hdwsorted).1 b hbr
        exact le_trans hrest (le_of_lt hhd')
  · intro a ha b hb
    rcases List.mem_cons.mp hb with hbt | hbd
    · have h1 : geP ths t a = true := List.mem_takeWhile_imp ha
      have h2 : (ths t).active_priority ≤ (ths a).active_priority := by
        simpa [geP] using h1
      rw [hbt]
      exact h2
    · exact hq.2.2 a ha b hbd

/-- C1 preservation: the dequeue loop leaves a sorted queue sorted. -/
theorem deq_list_sorted (ths : Threads) (q : List TId) (hs : QSorted ths q) :
    QSorted (cond_queue_deq_list ths q).1 (cond_queue_deq_list ths q).2.1 := by
  have hsub : QSorted ths (cond_queue_deq_list ths q).2.1 :=
    List.Pairwise.sublist (deq_list_suffix ths q).sublist hs
  refine List.Pairwise.imp_of_mem ?_ hsub
  intro a b _ _ hab
  rw [deq_list_prio, deq_list_prio]
  exact hab

/-- A queued thread is skipped by `cond_queue_deq` exactly when its
`timeout` or `interrupted` flag is set. -/
def ineligibleB (ths : Threads) (x : TId) : Bool :=
  (ths x).timeout || (ths x).interrupted

/-- Clearing a membership flag does not change eligibility. -/
theorem ineligibleB_clearInQ (ths : Threads) (t : TId) :
    ineligibleB (clearInQ ths t) = ineligibleB ths := by
  funext x
  simp [ineligibleB]

/-- Clearing the membership flag twice is the same as clearing it once. -/
theorem clear_clear (v : Thread) :
    ({ { v with inCondq := false } with inCondq := false } : Thread) =
      { v with inCondq := false } := rfl

/-- Full characterization of the dequeue loop: it splits the queue at the
first eligible entry, clears the membership flags of that entry and of
every skipped entry (and touches nothing else), and returns the eligible
entry with the remainder of the queue; when no entry is eligible it
clears every membership flag, empties the queue and returns `none`. -/
theorem deq_char (ths : Threads) (q : List TId) :
    match q.dropWhile (ineligibleB ths) with
    | [] =>
      (cond_queue_deq_list ths q).2.2 = none ∧
      (cond_queue_deq_list ths q).2.1 = [] ∧
      ∀ x, (cond_queue_deq_list ths q).1 x =
        if x ∈ q then { ths x with inCondq := false } else ths x
    | t :: rest =>
      (cond_queue_deq_list ths q).2.2 = some t ∧
      (cond_queue_deq_list ths q).2.1 = rest ∧
      ineligibleB ths t = false ∧
      ∀ x, (cond_queue_deq_list ths q).1 x =
        if x ∈ q.takeWhile (ineligibleB ths) ++ [t]
        then { ths x with inCondq := false } else ths x := by
  induction q generalizing ths with
  | nil => simp [cond_queue_deq_list]
  | cons a rest ih =>
    by_cases ha : ineligibleB ths a = true
    · -- the head is skipped and the loop continues on the tail
      have hcond : ¬((clearInQ ths a a).timeout = false ∧
          (clearInQ ths a a).interrupted = false) := by
        simp only [clearInQ_timeout, clearInQ_interrupted]
        intro hc
        rw [ineligibleB, hc.1, hc.2] at ha
        simp at ha
      have hstep : cond_queue_deq_list ths (a :: rest) =
          cond_queue_deq_list (clearInQ ths a) rest := by
        simp only [cond_queue_deq_list]
        rw [if_neg hcond]
      have hdw : (a :: rest).dropWhile (ineligibleB ths) =
          rest.dropWhile (ineligibleB ths) := by
        rw [List.dropWhile_cons, if_pos ha]
      have htw : (a :: rest).takeWhile (ineligibleB ths) =
          a :: rest.takeWhile (ineligibleB ths) := by
        rw [List.takeWhile_cons, if_pos ha]
      have ih' := ih (clearInQ ths a)
      rw [ineligibleB_clearInQ] at ih'
      rw [hstep, hdw]
      cases hd : rest.dropWhile (ineligibleB ths) with
      | nil =>
        rw [hd] at ih'
        refine ⟨ih'.1, ih'.2.1, ?_⟩
        intro x
        rw [ih'.2.2 x]
        by_cases hxa : x = a
        · subst hxa
          have h1 : clearInQ ths x x = { ths x with inCondq := false } := by
            simp [clearInQ]
          by_cases hxr : x ∈ rest <;>
            simp [hxr, h1, clear_clear, List.mem_cons]
        · have h2 : clearInQ ths a x = ths x := by
            simp [clearInQ, updT, hxa]
          by_cases hxr : x ∈ rest <;>
            simp [hxr, hxa, h2, List.mem_cons]
      | cons t rest' =>
        rw [hd] at ih'
        refine ⟨ih'.1, ih'.2.1, ih'.2.2.1, ?_⟩
        intro x
        rw [ih'.2.2.2 x, htw]
        by_cases hxa : x = a
        · subst hxa
          have h1 : clearInQ ths x x = { ths x with inCondq := false } := by
            simp [clearInQ]
          by_cases hxm : x ∈ rest.takeWhile (ineligibleB ths) ++ [t] <;>
            simp [hxm, h1, clear_clear, List.mem_cons, List.mem_append]
        · have h2 : clearInQ ths a x = ths x := by
            simp [clearInQ, updT, hxa]
          by_cases hxm : x ∈ rest.takeWhile (ineligibleB ths) ++ [t] <;>
            simp [hxm, hxa, h2, List.mem_cons, List.mem_append]
    · -- the head is eligible and is returned
      have ha' : ineligibleB ths a = false := by
        cases hv : ineligibleB ths a
        · rfl
        · exact absurd hv ha
      have hflags : (ths a).timeout = false ∧ (ths a).interrupted = false := by
        rw [ineligibleB] at ha'
        exact ⟨by
          cases hv : (ths a).timeout
          · rfl
          · rw [hv] at ha'; simp at ha', by
          cases hv : (ths a).interrupted
          · rfl
          · rw [hv] at ha'; simp at ha'⟩
      have hstep := deq_list_cons_eligible ths a rest hflags.1 hflags.2
      have hdw : (a :: rest).dropWhile (ineligibleB ths) = a :: rest := by
        rw [List.dropWhile_cons, if_neg (by rw [ha']; simp)]
      rw [hdw, hstep]
      refine ⟨rfl, rfl, ha', ?_⟩
      intro x
      have htw : (a :: rest).takeWhile (ineligibleB ths) = [] := by
        rw [List.takeWhile_cons, if_neg (by rw [ha']; simp)]
      rw [htw]
      by_cases hxa : x = a
      · subst hxa
        simp [clearInQ]
      · simp [clearInQ, updT, hxa]

/-- The guarded enqueue section shared by `wait` (with `sec = -1`) and
`timed_wait` (with the absolute deadline): reset the caller's flags, set
its wakeup time, enqueue it and record the bound mutex. -/
def enqSection (s : Threads × Cond) (t : TId) (m : MutexId) (sec nsec : Int) :
    Threads × Cond :=
  let ths1 := updT s.1 t
    { s.1 t with
      timeout := false, interrupted := false, wakeupSec := sec, wakeupNsec := nsec }
  let ec := cond_queue_enq ths1 s.2 t
  (ec.1, { ec.2 with c_mutex := some m })

/-- The cleanup section on a paired state (unlock-failure rollback,
interrupted cleanup, and timeout cleanup are textually identical guarded
sections in the source). -/
def cleanupPair (s : Threads × Cond) (t : TId) : Threads × Cond :=
  cleanupSection s.1 s.2 t

/-- The guarded section of `pthread_cond_signal`. -/
def signalSection (s : Threads × Cond) : Threads × Cond :=
  let r := condSignalBody s.1 s.2
  (r.2.1, r.2.2)

/-- The guarded section of `pthread_cond_broadcast`. -/
def broadcastSection (s : Threads × Cond) : Threads × Cond :=
  let r := condBroadcastBody s.1 s.2
  (r.2.1, r.2.2)

/-- Asynchronous setting of a thread's `timeout` / `interrupted` flags by
the scheduler or cancellation bridge; never touches the condition
variable itself. -/
def setFlagsStep (s : Threads × Cond) (t : TId) (b1 b2 : Bool) : Threads × Cond :=
  (updT s.1 t { s.1 t with timeout := b1, interrupted := b2 }, s.2)

/-- One complete guarded critical section of any operation of
thr_cond.c, acting on the pair of the global thread map and the
condition variable. The enqueue step carries the mutex-compatibility
validation that guards it in `wait` / `timed_wait`. -/
inductive CondStep : Threads × Cond → Threads × Cond → Prop where
  | enq (s : Threads × Cond) (t : TId) (m : MutexId) (sec nsec : Int)
      (hcompat : s.2.c_mutex = none ∨ s.2.c_mutex = some m) :
      CondStep s (enqSection s t m sec nsec)
  | cleanup (s : Threads × Cond) (t : TId) : CondStep s (cleanupPair s t)
  | signal (s : Threads × Cond) : CondStep s (signalSection s)
  | broadcast (s : Threads × Cond) : CondStep s (broadcastSection s)
  | setFlags (s : Threads × Cond) (t : TId) (b1 b2 : Bool) :
      CondStep s (setFlagsStep s t b1 b2)

/-- The invariant of claim C3: the bound mutex is null exactly when the
wait queue is empty. -/
def MutexQueueInv (s : Threads × Cond) : Prop :=
  s.2.c_mutex = none ↔ s.2.c_queue = []

/-- Each guarded critical section preserves the invariant. -/
theorem condStep_preserves (s s' : Threads × Cond)
    (hinv : MutexQueueInv s) (hs : CondStep s s') : MutexQueueInv s' := by
  obtain ⟨ths, cty, cin, cmx, cq⟩ := s
  cases hs with
  | enq t m sec nsec hcompat =>
    rw [MutexQueueInv, enqSection]
    simp only [cond_queue_enq]
    constructor
    · intro h
      exact absurd h (by simp)
    · intro h
      exact absurd h (enq_list_ne_nil _ t cq)
  | cleanup t =>
    rw [MutexQueueInv, cleanupPair, cleanupSection]
    split <;> rename_i hq
    · simpa using hq
    · rw [cond_queue_remove] at hq ⊢
      split at hq <;> rename_i hflag
      · rw [if_pos hflag]
        simp only at hq ⊢
        have hcq : cq ≠ [] := by
          intro h0
          apply hq
          rw [h0]
          rfl
        have hmx : cmx ≠ none := fun h => hcq (hinv.mp h)
        exact ⟨fun h => absurd h hmx, fun h => absurd h hq⟩
      · rw [if_neg hflag]
        simp only at hq ⊢
        have hmx : cmx ≠ none := fun h => hq (hinv.mp h)
        exact ⟨fun h => absurd h hmx, fun h => absurd h hq⟩
  | signal =>
    cases cty with
    | other => exact hinv
    | fast =>
      rw [MutexQueueInv, signalSection, condSignalBody]
      simp only [cond_queue_deq]
      by_cases hq : (cond_queue_deq_list ths cq).2.1 = []
      · rw [if_pos hq]
        simp [hq]
      · rw [if_neg hq]
        simp only
        have hcq : cq ≠ [] := by
          intro h0
          apply hq
          rw [h0, deq_list_nil]
        have hmx : cmx ≠ none := fun h => hcq (hinv.mp h)
        exact ⟨fun h => absurd h hmx, fun h => absurd h hq⟩
  | broadcast =>
    cases cty with
    | other => exact hinv
    | fast =>
      rw [MutexQueueInv, broadcastSection, condBroadcastBody]
      simp only
      rw [bloop_nil]
      simp
  | setFlags t b1 b2 =>
    exact hinv

/-- The invariant `QSorted` is decidable, so concrete queues can be
checked by evaluation. -/
instance instQSortedDecidable (ths : Threads) (q : List TId) : Decidable (QSorted ths q) :=
  inferInstanceAs (Decidable (q.Pairwise fun a b =>
    (ths b).active_priority ≤ (ths a).active_priority))

/-- Transport of sortedness along a priority-preserving change of the
thread map. -/
theorem QSorted_prio_congr (ths ths' : Threads) (q : List TId)
    (hp : ∀ x, (ths' x).active_priority = (ths x).active_priority)
    (h : QSorted ths q) : QSorted ths' q := by
  refine List.Pairwise.imp_of_mem ?_ h
  intro a b _ _ hab
  rw [hp a, hp b]
  exact hab

/-- Setting a membership flag preserves priorities. -/
theorem setInQ_prio (ths : Threads) (t x : TId) :
    (setInQ ths t x).active_priority = (ths x).active_priority := by
  by_cases h : x = t <;> simp [setInQ, updT, h]

/-- After `cond_queue_remove` the removed thread's membership flag is
clear, whether or not it was set. -/
theorem remove_clears_flag (ths : Threads) (c : Cond) (t : TId) :
    ((cond_queue_remove ths c t).1 t).inCondq = false := by
  rw [cond_queue_remove]
  split <;> rename_i hf
  · simp [clearInQ]
  · simpa using hf

/-- `cond_queue_remove` on a thread whose membership flag is clear does
nothing. -/
theorem remove_noop (ths : Threads) (c : Cond) (t : TId)
    (h : (ths t).inCondq = false) : cond_queue_remove ths c t = (ths, c) := by
  rw [cond_queue_remove, if_neg]
  rw [h]
  simp

/-- The thread-map component of the cleanup section is that of the
removal alone. -/
theorem cleanup_fst (ths : Threads) (c : Cond) (t : TId) :
    (cleanupSection ths c t).1 = (cond_queue_remove ths c t).1 := by
  rw [cleanupSection]
  split <;> rfl

/-- Re-storing a null `c_mutex` leaves the record unchanged. -/
theorem cond_set_mutex_self (c : Cond) (h : c.c_mutex = none) :
    ({ c with c_mutex := none } : Cond) = c := by
  cases c
  simp only at h
  rw [h]

/-- A waiting thread with the given priority: queued state, clear flags,
no continuation. -/
def exThread (p : Int) : Thread :=
  { active_priority := p, inCondq := false, timeout := false, interrupted := false,
    wakeupSec := 0, wakeupNsec := 0, state := .condWait, hasContinuation := false }

/-- Concrete thread map: ids 0,1,2,3 carry priorities 5,1,5,3. -/
def exThs : Threads := fun n =>
  if n = 0 then exThread 5 else if n = 1 then exThread 1
  else if n = 2 then exThread 5 else if n = 3 then exThread 3 else exThread 0

/-- State after enqueuing thread 0 (priority 5) on a fresh condvar. -/
def exS1 : Threads × Cond := cond_queue_enq exThs freshCond 0

/-- State after also enqueuing thread 1 (priority 1). -/
def exS2 : Threads × Cond := cond_queue_enq exS1.1 exS1.2 1

/-- State after also enqueuing thread 2 (priority 5). -/
def exS3 : Threads × Cond := cond_queue_enq exS2.1 exS2.2 2

/-- State after also enqueuing thread 3 (priority 3). -/
def exS4 : Threads × Cond := cond_queue_enq exS3.1 exS3.2 3

/-- First of four consecutive `pthread_cond_signal` calls. -/
def exSig1 : SBResult := pthread_cond_signal exS4.1 (some (some exS4.2))

/-- Second consecutive signal. -/
def exSig2 : SBResult := pthread_cond_signal exSig1.ths exSig1.handle

/-- Third consecutive signal. -/
def exSig3 : SBResult := pthread_cond_signal exSig2.ths exSig2.handle

/-- Fourth consecutive signal. -/
def exSig4 : SBResult := pthread_cond_signal exSig3.ths exSig3.handle

/-- The wait queue behind a live handle. -/
def handleQueue : Option (Option Cond) → Option (List TId)
  | some (some c) => some c.c_queue
  | _ => none

/-- A live fast condition variable with two queued eligible waiters. -/
def exCB : Cond :=
  { c_type := .fast, c_inited := true, c_mutex := some 1, c_queue := [0, 1] }

/-- A benign oracle: allocation succeeds, both mutex operations return 0,
and the resumed state is the example state. -/
def exEnv : WaitEnv :=
  { initOk := true, unlockResult := 0, resumeThs := exThs, resumeCond := freshCond,
    relockResult := 0 }

/-- An oracle whose resumed state has thread 0 flagged as timed out while
still queued. -/
def exEnvTO : WaitEnv :=
  { initOk := true, unlockResult := 0,
    resumeThs := updT exThs 0 { exThs 0 with timeout := true, inCondq := true },
    resumeCond := { c_type := .fast, c_inited := true, c_mutex := some 1, c_queue := [0] },
    relockResult := 7 }

/-- C1: the wait queue is always ordered by non-increasing priority with
FIFO order among equal priorities.  On a sorted queue `cond_queue_enq`
inserts the new thread after every queued thread of priority greater
than or equal to its own and before the first queued thread of strictly
lower priority; both `cond_queue_enq` and `cond_queue_deq` preserve
sortedness; and enqueuing threads with priorities [5,1,5,3] in that
order (ids 0,1,2,3) then signaling four times dequeues them in the order
0 (prio 5, first), 2 (prio 5, second), 3 (prio 3), 1 (prio 1). -/
theorem C1_queue_priority_order :
    (∀ (ths : Threads) (t : TId) (q : List TId), QSorted ths q →
        cond_queue_enq_list ths t q =
          q.takeWhile (geP ths t) ++ t :: q.dropWhile (geP ths t)) ∧
    (∀ (ths : Threads) (t : TId) (q : List TId), QSorted ths q →
        QSorted (setInQ ths t) (cond_queue_enq_list ths t q)) ∧
    (∀ (ths : Threads) (q : List TId), QSorted ths q →
        QSorted (cond_queue_deq_list ths q).1 (cond_queue_deq_list ths q).2.1) ∧
    ((exThs 0).active_priority = 5 ∧ (exThs 1).active_priority = 1 ∧
     (exThs 2).active_priority = 5 ∧ (exThs 3).active_priority = 3 ∧
     exS4.2.c_queue = [0, 2, 3, 1] ∧
     handleQueue exSig1.handle = some [2, 3, 1] ∧
     handleQueue exSig2.handle = some [3, 1] ∧
     handleQueue exSig3.handle = some [1] ∧
     handleQueue exSig4.handle = some [] ∧
     (exSig1.ths 0).state = .running ∧ (exSig1.ths 2).state = .condWait ∧
     (exSig1.ths 3).state = .condWait ∧ (exSig1.ths 1).state = .condWait ∧
     (exSig2.ths 2).state = .running ∧ (exSig2.ths 3).state = .condWait ∧
     (exSig2.ths 1).state = .condWait ∧
     (exSig3.ths 3).state = .running ∧ (exSig3.ths 1).state = .condWait ∧
     (exSig4.ths 1).state = .running) := by
  refine ⟨fun ths t q hs => enq_list_eq ths t q hs,
    fun ths t q hs =>
      QSorted_prio_congr ths (setInQ ths t) _ (setInQ_prio ths t)
        (enq_list_sorted ths t q hs),
    fun ths q hs => deq_list_sorted ths q hs, ?_⟩
  decide

/-- Witness for C1 at a concrete sorted queue [0, 3] (priorities 5, 3)
with thread 2 (priority 5) being inserted. -/
theorem C1_queue_priority_order_witness :
    QSorted exThs [0, 3] ∧
    cond_queue_enq_list exThs 2 [0, 3] =
      ([0, 3].takeWhile (geP exThs 2) ++ 2 :: [0, 3].dropWhile (geP exThs 2)) ∧
    QSorted (setInQ exThs 2) (cond_queue_enq_list exThs 2 [0, 3]) ∧
    QSorted (cond_queue_deq_list exThs [0, 3]).1 (cond_queue_deq_list exThs [0, 3]).2.1 :=
  ⟨by decide, C1_queue_priority_order.1 exThs 2 [0, 3] (by decide),
   C1_queue_priority_order.2.1 exThs 2 [0, 3] (by decide),
   C1_queue_priority_order.2.2.1 exThs [0, 3] (by decide)⟩

/-- C2: `cond_queue_deq` pops entries from the head, clearing each popped
entry's membership flag, until it finds an entry whose `timeout` and
`interrupted` flags are both unset, and returns that entry with the rest
of the queue; if no such entry exists it empties the queue and returns
none; popped entries receive no state change beyond removal and the
cleared membership flag, and unpopped threads are untouched. -/
theorem C2_deq_first_eligible (ths : Threads) (q : List TId) :
    match q.dropWhile (ineligibleB ths) with
    | [] =>
      (cond_queue_deq_list ths q).2.2 = none ∧
      (cond_queue_deq_list ths q).2.1 = [] ∧
      ∀ x, (cond_queue_deq_list ths q).1 x =
        if x ∈ q then { ths x with inCondq := false } else ths x
    | t :: rest =>
      (cond_queue_deq_list ths q).2.2 = some t ∧
      (cond_queue_deq_list ths q).2.1 = rest ∧
      ineligibleB ths t = false ∧
      ∀ x, (cond_queue_deq_list ths q).1 x =
        if x ∈ q.takeWhile (ineligibleB ths) ++ [t]
        then { ths x with inCondq := false } else ths x :=
  deq_char ths q

/-- C3: starting from any state with an empty queue and a null bound
mutex, the invariant `c_mutex = NULL iff the queue is empty` holds after
every sequence of complete guarded critical sections (enqueue, the three
cleanup paths, signal, broadcast, and asynchronous flag setting). -/
theorem C3_mutex_queue_invariant (s0 s : Threads × Cond)
    (hinit : s0.2.c_queue = [] ∧ s0.2.c_mutex = none)
    (hreach : Relation.ReflTransGen CondStep s0 s) :
    MutexQueueInv s := by
  induction hreach with
  | refl => exact ⟨fun _ => hinit.1, fun _ => hinit.2⟩
  | tail hab hbc ih => exact condStep_preserves _ _ ih hbc

/-- Witness for C3: one enqueue step from a fresh condition variable. -/
theorem C3_mutex_queue_invariant_witness :
    ((exThs, freshCond) : Threads × Cond).2.c_queue = [] ∧
    ((exThs, freshCond) : Threads × Cond).2.c_mutex = none ∧
    MutexQueueInv (enqSection (exThs, freshCond) 0 7 (-1) 0) :=
  ⟨rfl, rfl,
   C3_mutex_queue_invariant (exThs, freshCond) _ ⟨rfl, rfl⟩
     (Relation.ReflTransGen.single (CondStep.enq (exThs, freshCond) 0 7 (-1) 0 (Or.inl rfl)))⟩

/-- C10: removing a thread whose membership flag is unset is a no-op, so
removal — and the full cleanup section including the empty-queue
transition on `c_mutex` — is idempotent. -/
theorem C10_remove_idempotent (ths : Threads) (c : Cond) (t : TId) :
    ((ths t).inCondq = false → cond_queue_remove ths c t = (ths, c)) ∧
    (cond_queue_remove (cond_queue_remove ths c t).1 (cond_queue_remove ths c t).2 t =
      ((cond_queue_remove ths c t).1, (cond_queue_remove ths c t).2)) ∧
    (cleanupSection (cleanupSection ths c t).1 (cleanupSection ths c t).2 t =
      ((cleanupSection ths c t).1, (cleanupSection ths c t).2)) := by
  refine ⟨remove_noop ths c t, ?_, ?_⟩
  · exact remove_noop _ _ t (remove_clears_flag ths c t)
  · have hflag : ((cleanupSection ths c t).1 t).inCondq = false := by
      rw [cleanup_fst]
      exact remove_clears_flag ths c t
    have hmx : (cleanupSection ths c t).2.c_queue = [] →
        (cleanupSection ths c t).2.c_mutex = none := by
      intro hq
      rw [cleanupSection] at hq ⊢
      split at hq <;> rename_i h2
      · rw [if_pos h2]
      · rw [if_neg h2]
        exact absurd hq h2
    conv_lhs => rw [cleanupSection]
    rw [remove_noop _ _ t hflag]
    split <;> rename_i hq
    · have h3 : (cleanupSection ths c t).2.c_mutex = none := hmx hq
      have h4 := cond_set_mutex_self _ h3
      exact congrArg (fun z => ((cleanupSection ths c t).1, z)) h4
    · rfl

/-- Witness for C10: removing an unqueued thread changes nothing. -/
theorem C10_remove_idempotent_witness :
    (exThs 9).inCondq = false ∧
    cond_queue_remove exThs exCB 9 = (exThs, exCB) :=
  ⟨by decide, (C10_remove_idempotent exThs exCB 9).1 (by decide)⟩

/-- The mutex-compatibility check fails for no reason when the caller's
mutex is non-null and matches or the condition variable is unbound. -/
theorem mutex_check_neg (cmx : Option MutexId) (m : MutexId)
    (hcompat : cmx = none ∨ cmx = some m) :
    ¬(some m = none ∨ (cmx ≠ none ∧ cmx ≠ some m)) := by
  rintro (h | ⟨h1, h2⟩)
  · cases h
  · rcases hcompat with hc | hc
    · exact h1 hc
    · exact h2 hc

/-- Validation failure of the `wait` body: a null mutex or a bound mutex
differing from the passed one yields `EINVAL` with nothing else done. -/
theorem condWaitBody_invalid (t : TId) (ths : Threads) (mutex : Option MutexId)
    (cty : CondType) (cmx : Option MutexId) (cq : List TId) (env : WaitEnv)
    (hbad : mutex = none ∨ (cmx ≠ none ∧ cmx ≠ mutex)) :
    condWaitBody t mutex ths ⟨cty, true, cmx, cq⟩ env =
      { rval := EINVAL, errnoVal := none, ths := ths,
        handle := some (some ⟨cty, true, cmx, cq⟩),
        unlockCalled := false, relockCalled := false, ranContinuation := false } := by
  cases cty with
  | other => rfl
  | fast =>
    unfold condWaitBody
    simp only [if_true]
    split <;> rename_i hmx
    · rfl
    · exact absurd hbad hmx

/-- Validation failure of the `timedwait` body: same shape as for
`wait`. -/
theorem condTimedWaitBody_invalid (t : TId) (ths : Threads) (mutex : Option MutexId)
    (ts : Timespec) (cty : CondType) (cmx : Option MutexId) (cq : List TId)
    (env : WaitEnv)
    (hbad : mutex = none ∨ (cmx ≠ none ∧ cmx ≠ mutex)) :
    condTimedWaitBody t mutex ts ths ⟨cty, true, cmx, cq⟩ env =
      { rval := EINVAL, errnoVal := none, ths := ths,
        handle := some (some ⟨cty, true, cmx, cq⟩),
        unlockCalled := false, relockCalled := false, ranContinuation := false } := by
  cases cty with
  | other => rfl
  | fast =>
    unfold condTimedWaitBody
    simp only [if_true]
    split <;> rename_i hmx
    · rfl
    · exact absurd hbad hmx

/-- A well-formed deadline passes the validation of line 309. -/
theorem ts_valid_neg (ts : Timespec)
    (hts : 0 ≤ ts.tv_sec ∧ 0 ≤ ts.tv_nsec ∧ ts.tv_nsec < 1000000000) :
    ¬(ts.tv_sec < 0 ∨ ts.tv_nsec < 0 ∨ ts.tv_nsec ≥ 1000000000) := by
  rintro (h | h | h)
  · exact absurd hts.1 (not_le_of_lt h)
  · exact absurd hts.2.1 (not_le_of_lt h)
  · exact absurd hts.2.2 (not_lt_of_le h)

/-- `pthread_cond_timedwait` on a live handle with a well-formed deadline
runs the body. -/
theorem timedwait_live (t : TId) (c : Cond) (mutex : Option MutexId)
    (ts : Timespec) (ths : Threads) (env : WaitEnv)
    (hts : 0 ≤ ts.tv_sec ∧ 0 ≤ ts.tv_nsec ∧ ts.tv_nsec < 1000000000) :
    pthread_cond_timedwait t (some (some c)) mutex (some ts) ths env =
      .ret (condTimedWaitBody t mutex ts ths c env) := by
  unfold pthread_cond_timedwait
  simp only
  rw [if_neg (ts_valid_neg ts hts)]

/-- C4: a call to `wait` or `timed_wait` (with a well-formed deadline)
against an initialized condition variable, passing a null mutex or a
mutex different from the non-null bound mutex, returns `EINVAL` without
enqueuing the caller: the thread map, the handle (hence queue and bound
mutex) are unchanged and neither mutex operation is invoked. -/
theorem C4_mismatched_mutex_rejected (t : TId) (ths : Threads) (c : Cond)
    (mutex : Option MutexId) (ts : Timespec) (env : WaitEnv)
    (hinit : c.c_inited = true)
    (hbad : mutex = none ∨ (c.c_mutex ≠ none ∧ c.c_mutex ≠ mutex))
    (hts : 0 ≤ ts.tv_sec ∧ 0 ≤ ts.tv_nsec ∧ ts.tv_nsec < 1000000000) :
    pthread_cond_wait t (some (some c)) mutex ths env =
      { rval := EINVAL, errnoVal := none, ths := ths, handle := some (some c),
        unlockCalled := false, relockCalled := false, ranContinuation := false } ∧
    pthread_cond_timedwait t (some (some c)) mutex (some ts) ths env =
      .ret { rval := EINVAL, errnoVal := none, ths := ths, handle := some (some c),
             unlockCalled := false, relockCalled := false, ranContinuation := false } := by
  obtain ⟨cty, cin, cmx, cq⟩ := c
  have hcin : cin = true := hinit
  subst hcin
  constructor
  · exact condWaitBody_invalid t ths mutex cty cmx cq env hbad
  · rw [timedwait_live t _ mutex ts ths env hts]
    rw [condTimedWaitBody_invalid t ths mutex ts cty cmx cq env hbad]

/-- Witness for C4: a second waiter passing mutex 2 while mutex 1 is
bound. -/
theorem C4_mismatched_mutex_rejected_witness :
    exCB.c_inited = true ∧
    ((some 2 : Option MutexId) = none ∨
      (exCB.c_mutex ≠ none ∧ exCB.c_mutex ≠ some 2)) ∧
    ((0 : Int) ≤ (5 : Int) ∧ (0 : Int) ≤ (0 : Int) ∧ (0 : Int) < 1000000000) ∧
    pthread_cond_wait 9 (some (some exCB)) (some 2) exThs exEnv =
      { rval := EINVAL, errnoVal := none, ths := exThs, handle := some (some exCB),
        unlockCalled := false, relockCalled := false, ranContinuation := false } :=
  ⟨rfl, by decide, by decide,
   (C4_mismatched_mutex_rejected 9 exThs exCB (some 2) ⟨5, 0⟩ exEnv rfl
     (by decide) (by decide)).1⟩

/-- C5: broadcasting on an initialized fast condition variable whose
queued threads all have clear `timeout` and `interrupted` flags returns
0, makes every queued thread runnable, empties the queue, and
unconditionally clears the bound mutex. -/
theorem C5_broadcast_completeness (ths : Threads) (c : Cond)
    (hty : c.c_type = .fast)
    (helig : ∀ x ∈ c.c_queue, (ths x).timeout = false ∧ (ths x).interrupted = false) :
    (pthread_cond_broadcast ths (some (some c))).rval = 0 ∧
    (∀ x ∈ c.c_queue,
      ((pthread_cond_broadcast ths (some (some c))).ths x).state = .running) ∧
    (pthread_cond_broadcast ths (some (some c))).handle =
      some (some { c with c_queue := [], c_mutex := none }) := by
  obtain ⟨cty, cin, cmx, cq⟩ := c
  have h' : cty = .fast := hty
  subst h'
  refine ⟨rfl, ?_, ?_⟩
  · intro x hx
    exact bloop_all_run_aux cq.length ths cq (Nat.le_refl _) helig x hx
  · have hkey : (pthread_cond_broadcast ths
        (some (some ⟨.fast, cin, cmx, cq⟩))).handle =
        some (some { c_type := .fast, c_inited := cin, c_mutex := none,
                     c_queue := (cond_broadcast_loop ths cq).2 }) := rfl
    rw [hkey, bloop_nil]

/-- Witness for C5 on a two-waiter queue. -/
theorem C5_broadcast_completeness_witness :
    exCB.c_type = .fast ∧
    (∀ x ∈ exCB.c_queue, (exThs x).timeout = false ∧ (exThs x).interrupted = false) ∧
    ((pthread_cond_broadcast exThs (some (some exCB))).rval = 0 ∧
     (∀ x ∈ exCB.c_queue,
       ((pthread_cond_broadcast exThs (some (some exCB))).ths x).state = .running) ∧
     (pthread_cond_broadcast exThs (some (some exCB))).handle =
       some (some { exCB with c_queue := [], c_mutex := none })) :=
  ⟨rfl, by decide, C5_broadcast_completeness exThs exCB rfl (by decide)⟩

/-- C6: a `timed_wait` whose blocked phase ends with the caller's
`timeout` flag set and `interrupted` flag clear removes the caller from
the queue (idempotently, via `cond_queue_remove`), clears the bound
mutex when the queue becomes empty, attempts the relock whatever its
result, and returns `ETIMEDOUT` regardless of the relock outcome. -/
theorem C6_timedwait_timeout_path (t : TId) (m : MutexId) (ts : Timespec)
    (ths : Threads) (c : Cond) (env : WaitEnv)
    (hinit : c.c_inited = true) (hty : c.c_type = .fast)
    (hcompat : c.c_mutex = none ∨ c.c_mutex = some m)
    (hts : 0 ≤ ts.tv_sec ∧ 0 ≤ ts.tv_nsec ∧ ts.tv_nsec < 1000000000)
    (hunlock : env.unlockResult = 0)
    (hto : (env.resumeThs t).timeout = true)
    (hni : (env.resumeThs t).interrupted = false) :
    pthread_cond_timedwait t (some (some c)) (some m) (some ts) ths env =
      .ret { rval := ETIMEDOUT, errnoVal := none,
             ths := (cleanupSection env.resumeThs env.resumeCond t).1,
             handle := some (some (cleanupSection env.resumeThs env.resumeCond t).2),
             unlockCalled := true, relockCalled := true,
             ranContinuation := false } := by
  obtain ⟨cty, cin, cmx, cq⟩ := c
  have h1 : cin = true := hinit
  subst h1
  have h2 : cty = .fast := hty
  subst h2
  rw [timedwait_live t _ (some m) ts ths env hts]
  unfold condTimedWaitBody
  simp only [if_true]
  rw [if_neg (mutex_check_neg cmx m hcompat)]
  rw [if_neg (show ¬env.unlockResult ≠ 0 from fun hne => hne hunlock)]
  rw [if_neg (show ¬((env.resumeThs t).timeout = false ∧
      (env.resumeThs t).interrupted = false) from by simp [hto])]
  rw [hni]
  simp

/-- Witness for C6 on a one-waiter queue whose thread times out. -/
theorem C6_timedwait_timeout_path_witness :
    exCB.c_inited = true ∧ exCB.c_type = .fast ∧
    (exCB.c_mutex = none ∨ exCB.c_mutex = some 1) ∧
    ((0 : Int) ≤ (5 : Int) ∧ (0 : Int) ≤ (0 : Int) ∧ (0 : Int) < 1000000000) ∧
    exEnvTO.unlockResult = 0 ∧
    (exEnvTO.resumeThs 0).timeout = true ∧
    (exEnvTO.resumeThs 0).interrupted = false ∧
    pthread_cond_timedwait 0 (some (some exCB)) (some 1) (some ⟨5, 0⟩) exThs exEnvTO =
      .ret { rval := ETIMEDOUT, errnoVal := none,
             ths := (cleanupSection exEnvTO.resumeThs exEnvTO.resumeCond 0).1,
             handle := some (some (cleanupSection exEnvTO.resumeThs exEnvTO.resumeCond 0).2),
             unlockCalled := true, relockCalled := true,
             ranContinuation := false } :=
  ⟨rfl, rfl, by decide, by decide, rfl, by decide, by decide,
   C6_timedwait_timeout_path 0 1 ⟨5, 0⟩ exThs exCB exEnvTO rfl rfl (by decide)
     (by decide) rfl (by decide) (by decide)⟩

/-- C7 counterexample: at `nanoseconds = 1_000_000_000` the call returns
`-1`, not `EINVAL` (22), so the claim's stated return value is wrong. -/
theorem C7_counterexample :
    TWResult.rvalOf (pthread_cond_timedwait 0 (some (some freshCond)) (some 0)
      (some ⟨0, 1000000000⟩) exThs exEnv) = some (-1) ∧
    ((-1 : Int) = EINVAL → False) :=
  ⟨rfl, by decide⟩

/-- C7 amended: a malformed deadline (negative seconds, negative
nanoseconds, or nanoseconds at least 1_000_000_000) makes `timed_wait`
return `-1` with `errno` set to `EINVAL` — unlike the other
invalid-argument failures, which return `EINVAL` itself — before any
lazy initialization, enqueue, or mutex operation: the thread map, the
handle, and the external mutex are untouched. -/
theorem C7_returns_minus_one (t : TId) (handle : Option (Option Cond))
    (mutex : Option MutexId) (ts : Timespec) (ths : Threads) (env : WaitEnv)
    (hbad : ts.tv_sec < 0 ∨ ts.tv_nsec < 0 ∨ ts.tv_nsec ≥ 1000000000) :
    pthread_cond_timedwait t handle mutex (some ts) ths env =
      .ret { rval := -1, errnoVal := some EINVAL, ths := ths, handle := handle,
             unlockCalled := false, relockCalled := false,
             ranContinuation := false } := by
  unfold pthread_cond_timedwait
  simp only
  rw [if_pos hbad]

/-- Witness for C7 at nanoseconds = 1_000_000_000. -/
theorem C7_returns_minus_one_witness :
    ((0 : Int) < 0 ∨ (1000000000 : Int) < 0 ∨ (1000000000 : Int) ≥ 1000000000) ∧
    pthread_cond_timedwait 0 (some (some freshCond)) (some 0)
      (some ⟨0, 1000000000⟩) exThs exEnv =
      .ret { rval := -1, errnoVal := some EINVAL, ths := exThs,
             handle := some (some freshCond),
             unlockCalled := false, relockCalled := false,
             ranContinuation := false } :=
  ⟨by decide,
   C7_returns_minus_one 0 (some (some freshCond)) (some 0) ⟨0, 1000000000⟩
     exThs exEnv (by decide)⟩

/-- C8: `pthread_cond_wait` rejects a NULL handle safely with `EINVAL`,
but `pthread_cond_timedwait` dereferences the NULL `cond` handle at line
320 (after assigning `rval = EINVAL` at line 307) and dereferences a
NULL `abstime` at line 309, instead of returning `EINVAL`. -/
theorem C8_null_deref_code_bug :
    pthread_cond_timedwait 0 none (some 0) (some ⟨5, 0⟩) exThs exEnv = .nullDeref ∧
    pthread_cond_timedwait 0 (some (some freshCond)) (some 0) none exThs exEnv =
      .nullDeref ∧
    (pthread_cond_wait 0 none (some 0) exThs exEnv).rval = EINVAL ∧
    (pthread_cond_wait 0 none (some 0) exThs exEnv).handle = none ∧
    (pthread_cond_wait 0 none (some 0) exThs exEnv).unlockCalled = false :=
  ⟨rfl, rfl, rfl, rfl, rfl⟩

/-- C9 counterexample: `signal` (and `broadcast`) on a zero placeholder
returns `EINVAL` and leaves the placeholder uninitialized, rather than
lazily initializing it and proceeding. -/
theorem C9_counterexample :
    (pthread_cond_signal exThs (some none)).rval = EINVAL ∧
    (pthread_cond_signal exThs (some none)).handle = some none ∧
    (pthread_cond_broadcast exThs (some none)).rval = EINVAL ∧
    (pthread_cond_broadcast exThs (some none)).handle = some none ∧
    ((EINVAL : Int) = 0 → False) :=
  ⟨rfl, rfl, rfl, rfl, by decide⟩

/-- C9 amended: only `wait` and `timed_wait` lazily initialize a
zero-valued placeholder (behaving exactly as if called on a freshly
initialized condition variable, so initialization happens only on the
first such call); `signal` and `broadcast` on a placeholder return
`EINVAL` without initializing it. -/
theorem C9_lazy_init_wait_only :
    (∀ (t : TId) (mutex : Option MutexId) (ths : Threads) (env : WaitEnv),
        env.initOk = true →
        pthread_cond_wait t (some none) mutex ths env =
          pthread_cond_wait t (some (some freshCond)) mutex ths env) ∧
    (∀ (t : TId) (mutex : Option MutexId) (ts : Timespec) (ths : Threads)
        (env : WaitEnv),
        env.initOk = true →
        (0 ≤ ts.tv_sec ∧ 0 ≤ ts.tv_nsec ∧ ts.tv_nsec < 1000000000) →
        pthread_cond_timedwait t (some none) mutex (some ts) ths env =
          pthread_cond_timedwait t (some (some freshCond)) mutex (some ts) ths env) ∧
    (∀ ths : Threads, pthread_cond_signal ths (some none) =
        { rval := EINVAL, ths := ths, handle := some none }) ∧
    (∀ ths : Threads, pthread_cond_broadcast ths (some none) =
        { rval := EINVAL, ths := ths, handle := some none }) := by
  refine ⟨?_, ?_, fun ths => rfl, fun ths => rfl⟩
  · intro t mutex ths env hinit
    show (if env.initOk = true then condWaitBody t mutex ths freshCond env
          else { rval := ENOMEM, errnoVal := none, ths := ths, handle := some none,
                 unlockCalled := false, relockCalled := false,
                 ranContinuation := false }) =
      condWaitBody t mutex ths freshCond env
    rw [if_pos hinit]
  · intro t mutex ts ths env hinit hts
    rw [timedwait_live t freshCond mutex ts ths env hts]
    unfold pthread_cond_timedwait
    simp only
    rw [if_neg (ts_valid_neg ts hts), if_pos hinit]

/-- Witness for C9: a wait against a placeholder equals a wait against a
fresh condition variable. -/
theorem C9_lazy_init_wait_only_witness :
    exEnv.initOk = true ∧
    pthread_cond_wait 0 (some none) (some 1) exThs exEnv =
      pthread_cond_wait 0 (some (some freshCond)) (some 1) exThs exEnv :=
  ⟨rfl, C9_lazy_init_wait_only.1 0 (some 1) exThs exEnv rfl⟩

end ThrCond
